import Mathlib

/-!
Verification of the vector-clock RPC service (src/vector_clock.py, src/server.py).

The clock of a `VectorClock` is a Python dict `str -> int`; we embed it as an
association list `List (String × Int)` in insertion order, with dict reads
returning the first matching key.  All dicts built by the Python program have
unique keys, so first-occurrence semantics coincides with Python's.

Values arriving from JSON are embedded as `PyVal`; `pyToInt` models Python's
`int(v)` coercion (`int` on a string is approximated by decimal parsing, which
agrees with Python on every input exercised here).
-/

/-- A JSON-decoded Python value, restricted to the shapes the claims exercise. -/
inductive PyVal where
  | pyInt (n : Int)
  | pyStr (s : String)
  | pyNone
deriving DecidableEq, Repr

/-- Python `int(v)`: succeeds on ints (including negative ones), parses decimal
strings, raises (here: `none`) on `None` and on non-numeric strings. -/
def pyToInt : PyVal → Option Int
  | .pyInt n => some n
  | .pyStr s => s.toInt?
  | .pyNone => none

/-- Python `float(v) if isinstance(v, (int, float, str)) else None` used by
`validate_operands`; only coercibility matters to the claims, not the value. -/
def floatCoercible : PyVal → Bool
  | .pyInt _ => true
  | .pyStr s => (s.toInt?).isSome
  | .pyNone => false

namespace VC

/-- The counters mapping of a clock: a Python dict `str -> int`. -/
abbrev Clock := List (String × Int)

/-- Dict read `d[k]` / `k in d`: first entry with the given key. -/
def lookup : Clock → String → Option Int
  | [], _ => none
  | p :: rest, k => if p.1 = k then some p.2 else lookup rest k

/-- Python `d.get(k, 0)`: absent labels read as 0. -/
def getD (m : Clock) (k : String) : Int :=
  (lookup m k).getD 0

/-- Dict assignment `d[k] = v`: replace in place if the key is present,
otherwise append at the end (Python dicts preserve insertion order). -/
def set : Clock → String → Int → Clock
  | [], k, v => [(k, v)]
  | p :: rest, k, v => if p.1 = k then (k, v) :: rest else p :: set rest k v

/-- `VectorClock.increment` on the counters: missing key is created at 0,
then incremented (`if node_id not in self.clock: ... ; self.clock[node_id] += 1`). -/
def increment (m : Clock) (node_id : String) : Clock :=
  set m node_id (getD m node_id + 1)

/-- One iteration of `VectorClock.update`'s loop body:
`if node not in self.clock: self.clock[node] = 0; self.clock[node] = max(self.clock[node], value)`. -/
def updateStep (acc : Clock) (kv : String × Int) : Clock :=
  set acc kv.1 (max (getD acc kv.1) kv.2)

/-- `VectorClock.update(other)`: pointwise max over the entries of `other`. -/
def update (self other : Clock) : Clock :=
  other.foldl updateStep self

/-- The union of label sets `set(self.clock.keys()) | set(other_clock.clock.keys())`
iterated by `compare` (duplicates are harmless: the loop only sets flags). -/
def allNodes (a b : Clock) : List String :=
  a.map Prod.fst ++ b.map Prod.fst

/-- `VectorClock.compare`, returning the literal result strings of the source. -/
def compare (a b : Clock) : String :=
  let ns := allNodes a b
  let self_greater := ns.any (fun n => decide (getD b n < getD a n))
  let other_greater := ns.any (fun n => decide (getD a n < getD b n))
  if self_greater && !other_greater then "happens-after"
  else if other_greater && !self_greater then "happens-before"
  else if !self_greater && !other_greater then "equal"
  else "concurrent"

/-- Spec-side predicate (§4.1): there exists a label in the union U of both
label sets where self's counter strictly exceeds other's. -/
def SelfAhead (a b : Clock) : Prop :=
  ∃ n ∈ allNodes a b, getD b n < getD a n

/-- Spec-side predicate (§4.1): there exists a label in the union U of both
label sets where other's counter strictly exceeds self's. -/
def OtherAhead (a b : Clock) : Prop :=
  ∃ n ∈ allNodes a b, getD a n < getD b n

end VC

/-- `VectorClock`: an owner label and the counters dict. -/
structure VectorClock where
  node_id : String
  clock : VC.Clock
deriving DecidableEq, Repr

/-- `VectorClock.__init__(node_id, all_nodes)`: note Python's `if all_nodes:`
treats the empty list as falsy. -/
def VectorClock.init (node_id : String) (all_nodes : Option (List String)) : VectorClock :=
  match all_nodes with
  | some (n :: ns) => ⟨node_id, (n :: ns).foldl (fun m node => VC.set m node 0) []⟩
  | _ => ⟨node_id, [(node_id, 0)]⟩

/-- The dict comprehension `{k: int(v) for k, v in data.items()}`: fails
(raises) as soon as one `int(v)` raises, returning no partial result. -/
def intItems : List (String × PyVal) → Option VC.Clock
  | [] => some []
  | (k, v) :: rest =>
    match pyToInt v, intItems rest with
    | some n, some tail => some ((k, n) :: tail)
    | _, _ => none

/-- `VectorClock.from_dict(data, node_id)`: builds a fresh clock and replaces
its counters wholesale with the coerced items; `none` models the raised
`ValueError`/`TypeError` (the spec's `MalformedClock`), which leaves every
existing clock untouched. -/
def VectorClock.from_dict (data : List (String × PyVal)) (node_id : String) :
    Option VectorClock :=
  (intItems data).map (fun c => ⟨node_id, c⟩)

/-- Dict read on the raw imported mapping (same first-occurrence semantics as
`VC.lookup`). -/
def plookup : List (String × PyVal) → String → Option PyVal
  | [], _ => none
  | p :: rest, k => if p.1 = k then some p.2 else plookup rest k

/-- The JSON body of a POST request, restricted to the keys the server reads. -/
structure Payload where
  vector_clock : Option (List (String × PyVal))
  x : Option PyVal
  y : Option PyVal
deriving DecidableEq, Repr

/-- Python's `if not payload:` rejects the empty dict as well as a parse
failure; bodies with keys other than the three modelled ones do not occur in
any claim. -/
def payloadFalsy (p : Payload) : Bool :=
  p.vector_clock.isNone && p.x.isNone && p.y.isNone

/-- `validate_operands`: `x` and `y` must be present and float-coercible. -/
def validate_operands (p : Payload) : Bool :=
  match p.x, p.y with
  | some xv, some yv => floatCoercible xv && floatCoercible yv
  | _, _ => false

/-- The clock-relevant outcome of `RpcHandler.do_POST`: the server clock after
the request, the HTTP status, and the `causality.relationship` string when a
causality block is emitted. -/
structure PostResult where
  clock : VC.Clock
  status : Nat
  relationship : Option String
deriving DecidableEq, Repr

/-- The clock-import step of `do_POST`: on `"vector_clock" in payload`, try
`from_dict`; a raised error is caught and logged, leaving the server clock
unmerged and `client_clock = None`. -/
def mergeStep (serverClock : VC.Clock) (p : Payload) :
    VC.Clock × Option VectorClock :=
  match p.vector_clock with
  | none => (serverClock, none)
  | some data =>
    match VectorClock.from_dict data "client" with
    | none => (serverClock, none)
    | some cc => (VC.update serverClock cc.clock, some cc)

/-- `RpcHandler.do_POST` for one request against a given server clock:
parse/falsy check, optional clock merge, unconditional increment, then the
business branch for the path. -/
def do_POST (serverClock : VC.Clock) (path : String) (body : Option Payload) :
    PostResult :=
  match body with
  | none => ⟨serverClock, 400, none⟩
  | some p =>
    if payloadFalsy p then ⟨serverClock, 400, none⟩
    else
      let step := mergeStep serverClock p
      let clock2 := VC.increment step.1 "server"
      if path = "/add" ∨ path = "/multiply" then
        if validate_operands p then
          ⟨clock2, 200,
            some (match step.2 with
              | some cc => VC.compare clock2 cc.clock
              | none => "no_client_clock")⟩
        else ⟨clock2, 400, none⟩
      else ⟨clock2, 404, none⟩

/-! ## Basic dictionary lemmas -/

namespace VC

theorem lookup_set (m : Clock) (k : String) (v : Int) (k' : String) :
    lookup (set m k v) k' = if k = k' then some v else lookup m k' := by
  induction m with
  | nil => simp [set, lookup]
  | cons p rest ih =>
    by_cases h1 : p.1 = k
    · by_cases h2 : k = k' <;> simp [set, lookup, h1, h2]
    · by_cases h2 : p.1 = k'
      · have hkk : ¬ k = k' := fun h => h1 (h2.trans h.symm)
        have hkk2 : ¬ k' = k := fun h => hkk h.symm
        simp [set, lookup, h1, h2, hkk, hkk2]
      · simp [set, lookup, h1, h2, ih]

theorem getD_set (m : Clock) (k : String) (v : Int) (k' : String) :
    getD (set m k v) k' = if k = k' then v else getD m k' := by
  by_cases h : k = k' <;> simp [getD, lookup_set, h]

theorem lookup_mem (m : Clock) (k : String) (v : Int) (h : lookup m k = some v) :
    (k, v) ∈ m := by
  induction m with
  | nil => simp [lookup] at h
  | cons p rest ih =>
    by_cases h1 : p.1 = k
    · simp [lookup, h1] at h
      obtain ⟨a, b⟩ := p
      simp at h1 h
      subst h1
      subst h
      exact List.mem_cons_self _ _
    · simp [lookup, h1] at h
      exact List.mem_cons_of_mem _ (ih h)

theorem lookup_eq_none_of_not_mem (m : Clock) (k : String)
    (h : k ∉ m.map Prod.fst) : lookup m k = none := by
  induction m with
  | nil => rfl
  | cons p rest ih =>
    simp only [List.map_cons, List.mem_cons, not_or] at h
    have h1 : ¬ p.1 = k := fun hh => h.1 hh.symm
    simp [lookup, h1, ih h.2]

theorem getD_nonneg (m : Clock) (k : String) (h : ∀ kv ∈ m, 0 ≤ kv.2) :
    0 ≤ getD m k := by
  unfold getD
  cases hl : lookup m k with
  | none => simp
  | some v => simpa using h (k, v) (lookup_mem m k v hl)

theorem set_lookup_self (m : Clock) (k : String) (v : Int)
    (h : lookup m k = some v) : set m k v = m := by
  induction m with
  | nil => simp [lookup] at h
  | cons p rest ih =>
    by_cases h1 : p.1 = k
    · simp [lookup, h1] at h
      simp [set, h1]
      calc (k, v) = (p.1, p.2) := by rw [h1, h]
        _ = p := rfl
    · simp [lookup, h1] at h
      simp [set, h1, ih h]

end VC

/-! ## Merge (`update`) lemmas -/

namespace VC

theorem getD_updateStep (acc : Clock) (kv : String × Int) (L : String) :
    getD (updateStep acc kv) L =
      if kv.1 = L then max (getD acc kv.1) kv.2 else getD acc L := by
  by_cases h : kv.1 = L
  · simp [updateStep, getD_set, h]
  · simp [updateStep, getD_set, h]

theorem getD_le_update (b a : Clock) (L : String) :
    getD a L ≤ getD (update a b) L := by
  induction b generalizing a with
  | nil => simp [update]
  | cons kv rest ih =>
    have h1 : getD a L ≤ getD (updateStep a kv) L := by
      rw [getD_updateStep]
      by_cases h : kv.1 = L
      · simp only [h, if_pos]
        exact le_max_left _ _
      · simp [h]
    calc getD a L ≤ getD (updateStep a kv) L := h1
      _ ≤ getD (update (updateStep a kv) rest) L := ih _
      _ = getD (update a (kv :: rest)) L := rfl

theorem getD_b_le_update (b a : Clock) (L : String) (h : L ∈ b.map Prod.fst) :
    getD b L ≤ getD (update a b) L := by
  induction b generalizing a with
  | nil => simp at h
  | cons kv rest ih =>
    by_cases h1 : kv.1 = L
    · have hb : getD (kv :: rest) L = kv.2 := by simp [getD, lookup, h1]
      have h2 : kv.2 ≤ getD (updateStep a kv) L := by
        rw [getD_updateStep, if_pos h1, h1]
        exact le_max_right _ _
      calc getD (kv :: rest) L = kv.2 := hb
        _ ≤ getD (updateStep a kv) L := h2
        _ ≤ getD (update (updateStep a kv) rest) L := getD_le_update rest _ L
        _ = getD (update a (kv :: rest)) L := rfl
    · have h2 : L ∈ rest.map Prod.fst := by
        simp only [List.map_cons, List.mem_cons] at h
        rcases h with h | h
        · exact absurd h.symm h1
        · exact h
      have hb : getD (kv :: rest) L = getD rest L := by simp [getD, lookup, h1]
      rw [hb]
      show getD rest L ≤ getD (update (updateStep a kv) rest) L
      exact ih _ h2

theorem update_entry_le (b a : Clock) (kv : String × Int) (h : kv ∈ b) :
    kv.2 ≤ getD (update a b) kv.1 := by
  induction b generalizing a with
  | nil => simp at h
  | cons kv0 rest ih =>
    rcases List.mem_cons.mp h with h | h
    · subst h
      have h2 : kv.2 ≤ getD (updateStep a kv) kv.1 := by
        rw [getD_updateStep, if_pos rfl]
        exact le_max_right _ _
      calc kv.2 ≤ getD (updateStep a kv) kv.1 := h2
        _ ≤ getD (update (updateStep a kv) rest) kv.1 := getD_le_update rest _ _
        _ = getD (update a (kv :: rest)) kv.1 := rfl
    · show kv.2 ≤ getD (update (updateStep a kv0) rest) kv.1
      exact ih _ h

theorem lookup_update_isSome_of (b a : Clock) (k : String)
    (h : (lookup a k).isSome = true) :
    (lookup (update a b) k).isSome = true := by
  induction b generalizing a with
  | nil => exact h
  | cons kv rest ih =>
    show (lookup (update (updateStep a kv) rest) k).isSome = true
    apply ih
    by_cases h2 : kv.1 = k <;> simp [updateStep, lookup_set, h2, h]

theorem lookup_update_isSome (b a : Clock) (k : String) (hm : k ∈ b.map Prod.fst) :
    (lookup (update a b) k).isSome = true := by
  induction b generalizing a with
  | nil => simp at hm
  | cons kv rest ih =>
    by_cases h1 : k ∈ rest.map Prod.fst
    · exact ih _ h1
    · have hk : kv.1 = k := by
        simp only [List.map_cons, List.mem_cons] at hm
        rcases hm with h | h
        · exact h.symm
        · exact absurd h h1
      show (lookup (update (updateStep a kv) rest) k).isSome = true
      apply lookup_update_isSome_of
      simp [updateStep, lookup_set, hk]

theorem update_fix (u b : Clock)
    (h : ∀ kv ∈ b, ∃ c, lookup u kv.1 = some c ∧ kv.2 ≤ c) :
    update u b = u := by
  induction b with
  | nil => rfl
  | cons kv rest ih =>
    obtain ⟨c, hc, hle⟩ := h kv (List.mem_cons_self _ _)
    have hstep : updateStep u kv = u := by
      have hg : getD u kv.1 = c := by simp [getD, hc]
      rw [updateStep, hg, max_eq_left hle]
      exact set_lookup_self u kv.1 c hc
    show update (updateStep u kv) rest = u
    rw [hstep]
    exact ih (fun kv2 hm => h kv2 (List.mem_cons_of_mem _ hm))

theorem update_idem (a b : Clock) : update (update a b) b = update a b := by
  apply update_fix
  intro kv hm
  have hs : (lookup (update a b) kv.1).isSome = true :=
    lookup_update_isSome b a kv.1 (List.mem_map_of_mem Prod.fst hm)
  obtain ⟨c, hc⟩ := Option.isSome_iff_exists.mp hs
  refine ⟨c, hc, ?_⟩
  have hged : kv.2 ≤ getD (update a b) kv.1 := update_entry_le b a kv hm
  rwa [getD, hc, Option.getD_some] at hged

theorem getD_update_eq (b a : Clock) (hb : (b.map Prod.fst).Nodup) (L : String) :
    getD (update a b) L =
      if L ∈ b.map Prod.fst then max (getD a L) (getD b L) else getD a L := by
  induction b generalizing a with
  | nil => simp [update]
  | cons kv rest ih =>
    simp only [List.map_cons, List.nodup_cons] at hb
    obtain ⟨hk, hrest⟩ := hb
    show getD (update (updateStep a kv) rest) L = _
    rw [ih _ hrest]
    by_cases h1 : kv.1 = L
    · subst h1
      have hmem : kv.1 ∉ rest.map Prod.fst := hk
      have hD : getD (updateStep a kv) kv.1 = max (getD a kv.1) kv.2 := by
        rw [getD_updateStep, if_pos rfl]
      have hb2 : getD (kv :: rest) kv.1 = kv.2 := by simp [getD, lookup]
      simp [hmem, hD, hb2]
    · have hD : getD (updateStep a kv) L = getD a L := by
        rw [getD_updateStep, if_neg h1]
      have hb2 : getD (kv :: rest) L = getD rest L := by simp [getD, lookup, h1]
      have h1s : ¬ L = kv.1 := fun hh => h1 hh.symm
      by_cases hm : L ∈ rest.map Prod.fst <;> simp [hm, h1s, hD, hb2]

end VC

/-! ## Comparison lemmas -/

namespace VC

theorem selfAhead_any (a b : Clock) :
    ((allNodes a b).any (fun n => decide (getD b n < getD a n)) = true) ↔
      SelfAhead a b := by
  simp [SelfAhead, List.any_eq_true]

theorem otherAhead_any (a b : Clock) :
    ((allNodes a b).any (fun n => decide (getD a n < getD b n)) = true) ↔
      OtherAhead a b := by
  simp [OtherAhead, List.any_eq_true]

theorem compare_after_iff (a b : Clock) :
    compare a b = "happens-after" ↔ SelfAhead a b ∧ ¬ OtherAhead a b := by
  have hs := selfAhead_any a b
  have ho := otherAhead_any a b
  simp only [compare]
  cases hb1 : (allNodes a b).any (fun n => decide (getD b n < getD a n)) <;>
  cases hb2 : (allNodes a b).any (fun n => decide (getD a n < getD b n)) <;>
  rw [hb1] at hs <;> rw [hb2] at ho <;>
  simp at hs ho <;>
  simp [hs, ho]

theorem compare_before_iff (a b : Clock) :
    compare a b = "happens-before" ↔ OtherAhead a b ∧ ¬ SelfAhead a b := by
  have hs := selfAhead_any a b
  have ho := otherAhead_any a b
  simp only [compare]
  cases hb1 : (allNodes a b).any (fun n => decide (getD b n < getD a n)) <;>
  cases hb2 : (allNodes a b).any (fun n => decide (getD a n < getD b n)) <;>
  rw [hb1] at hs <;> rw [hb2] at ho <;>
  simp at hs ho <;>
  simp [hs, ho]

theorem compare_equal_iff (a b : Clock) :
    compare a b = "equal" ↔ ¬ SelfAhead a b ∧ ¬ OtherAhead a b := by
  have hs := selfAhead_any a b
  have ho := otherAhead_any a b
  simp only [compare]
  cases hb1 : (allNodes a b).any (fun n => decide (getD b n < getD a n)) <;>
  cases hb2 : (allNodes a b).any (fun n => decide (getD a n < getD b n)) <;>
  rw [hb1] at hs <;> rw [hb2] at ho <;>
  simp at hs ho <;>
  simp [hs, ho]

theorem compare_concurrent_iff (a b : Clock) :
    compare a b = "concurrent" ↔ SelfAhead a b ∧ OtherAhead a b := by
  have hs := selfAhead_any a b
  have ho := otherAhead_any a b
  simp only [compare]
  cases hb1 : (allNodes a b).any (fun n => decide (getD b n < getD a n)) <;>
  cases hb2 : (allNodes a b).any (fun n => decide (getD a n < getD b n)) <;>
  rw [hb1] at hs <;> rw [hb2] at ho <;>
  simp at hs ho <;>
  simp [hs, ho]

theorem compare_mem_labels (a b : Clock) :
    compare a b = "happens-after" ∨ compare a b = "happens-before" ∨
      compare a b = "equal" ∨ compare a b = "concurrent" := by
  simp only [compare]
  cases hb1 : (allNodes a b).any (fun n => decide (getD b n < getD a n)) <;>
  cases hb2 : (allNodes a b).any (fun n => decide (getD a n < getD b n)) <;>
  simp

theorem selfAhead_swap (a b : Clock) : SelfAhead a b ↔ OtherAhead b a := by
  simp [SelfAhead, OtherAhead, allNodes, List.mem_append, or_comm]

theorem otherAhead_swap (a b : Clock) : OtherAhead a b ↔ SelfAhead b a := by
  simp [SelfAhead, OtherAhead, allNodes, List.mem_append, or_comm]

theorem compare_equal_of_getD_eq (a b : Clock) (h : ∀ L, getD a L = getD b L) :
    compare a b = "equal" := by
  rw [compare_equal_iff]
  constructor
  · rintro ⟨n, _, hn⟩
    rw [h n] at hn
    exact absurd hn (lt_irrefl _)
  · rintro ⟨n, _, hn⟩
    rw [h n] at hn
    exact absurd hn (lt_irrefl _)

end VC

/-! ## Import (`from_dict`) lemmas -/

theorem intItems_isSome_iff (data : List (String × PyVal)) :
    (intItems data).isSome = true ↔ ∀ kv ∈ data, (pyToInt kv.2).isSome = true := by
  induction data with
  | nil => simp [intItems]
  | cons kv rest ih =>
    obtain ⟨k, v⟩ := kv
    cases hv : pyToInt v with
    | none =>
      have hL : intItems ((k, v) :: rest) = none := by simp [intItems, hv]
      rw [hL]
      simp only [Option.isSome_none, Bool.false_eq_true, false_iff]
      intro hall
      have hx := hall (k, v) (List.mem_cons_self _ _)
      rw [hv] at hx
      simp at hx
    | some n =>
      cases hr : intItems rest with
      | none =>
        have hL : intItems ((k, v) :: rest) = none := by simp [intItems, hv, hr]
        rw [hL]
        simp only [Option.isSome_none, Bool.false_eq_true, false_iff]
        intro hall
        have h2 : (intItems rest).isSome = true :=
          ih.mpr (fun kv2 hm => hall kv2 (List.mem_cons_of_mem _ hm))
        rw [hr] at h2
        simp at h2
      | some tail =>
        have hL : intItems ((k, v) :: rest) = some ((k, n) :: tail) := by
          simp [intItems, hv, hr]
        rw [hL]
        simp only [Option.isSome_some, true_iff]
        intro kv2 hm
        rcases List.mem_cons.mp hm with h | h
        · subst h
          simp [hv]
        · have h2 : (intItems rest).isSome = true := by rw [hr]; rfl
          exact ih.mp h2 kv2 h

theorem intItems_eq_none_of_bad (data : List (String × PyVal)) (kv : String × PyVal)
    (h1 : kv ∈ data) (h2 : pyToInt kv.2 = none) : intItems data = none := by
  cases hI : intItems data with
  | none => rfl
  | some c =>
    have hx := (intItems_isSome_iff data).mp (by rw [hI]; rfl) kv h1
    rw [h2] at hx
    simp at hx

theorem intItems_spec (data : List (String × PyVal)) (c : VC.Clock)
    (h : intItems data = some c) :
    c.map Prod.fst = data.map Prod.fst ∧
      ∀ k, VC.lookup c k = (plookup data k).bind pyToInt := by
  induction data generalizing c with
  | nil =>
    simp [intItems] at h
    subst h
    simp [VC.lookup, plookup]
  | cons kv rest ih =>
    obtain ⟨k0, v0⟩ := kv
    cases hv : pyToInt v0 with
    | none =>
      have hL : intItems ((k0, v0) :: rest) = none := by simp [intItems, hv]
      rw [hL] at h
      cases h
    | some n =>
      cases hr : intItems rest with
      | none =>
        have hL : intItems ((k0, v0) :: rest) = none := by simp [intItems, hv, hr]
        rw [hL] at h
        cases h
      | some tail =>
        have hL : intItems ((k0, v0) :: rest) = some ((k0, n) :: tail) := by
          simp [intItems, hv, hr]
        rw [hL] at h
        injection h with h
        subst h
        obtain ⟨ihm, ihl⟩ := ih tail hr
        constructor
        · simp [ihm]
        · intro k
          by_cases hk : k0 = k
          · simp [VC.lookup, plookup, hk, hv]
          · simp [VC.lookup, plookup, hk, ihl k]

/-! ## Claim theorems -/

/-- C1 counterexample: an input mapping containing a negative value is
accepted by `from_dict` (the claim says import must fail on it). -/
theorem from_dict_accepts_negative_cex :
    VectorClock.from_dict [("x", PyVal.pyInt (-1))] "client" =
      some ⟨"client", [("x", -1)]⟩ ∧
    (-1 : Int) < 0 := by
  decide

/-- C1 (amended): snapshot import succeeds exactly when every value is
coercible to an integer by Python `int()`; negative integers are accepted.
A failed import returns no clock at all, so it touches no counters state. -/
theorem from_dict_fails_iff_non_coercible (data : List (String × PyVal))
    (owner : String) :
    (VectorClock.from_dict data owner).isSome = true ↔
      ∀ kv ∈ data, (pyToInt kv.2).isSome = true := by
  have hmap :
      (Option.map (fun c => ({ node_id := owner, clock := c } : VectorClock))
        (intItems data)).isSome = (intItems data).isSome := by
    cases intItems data <;> rfl
  rw [VectorClock.from_dict, hmap]
  exact intItems_isSome_iff data

/-- C1 witness: a non-coercible value makes the import fail, an all-integer
mapping makes it succeed. -/
theorem from_dict_fails_iff_non_coercible_witness :
    ¬ (VectorClock.from_dict [("a", PyVal.pyNone)] "client").isSome = true ∧
    (VectorClock.from_dict [("b", PyVal.pyInt 3)] "client").isSome = true :=
  ⟨fun hc =>
      absurd ((from_dict_fails_iff_non_coercible [("a", PyVal.pyNone)] "client").mp hc)
        (by decide),
    (from_dict_fails_iff_non_coercible [("b", PyVal.pyInt 3)] "client").mpr (by decide)⟩

/-- C10: a successful `from_dict` yields exactly the coerced items of the
input mapping — same keys in the same order, each value `int(v)` — and in
particular no entry is created for the owner label when the input does not
contain it. -/
theorem from_dict_exact_items (data : List (String × PyVal)) (owner : String)
    (vc : VectorClock) (h : VectorClock.from_dict data owner = some vc) :
    vc.node_id = owner ∧
    vc.clock.map Prod.fst = data.map Prod.fst ∧
    (∀ k, VC.lookup vc.clock k = (plookup data k).bind pyToInt) ∧
    (owner ∉ data.map Prod.fst → VC.lookup vc.clock owner = none) := by
  rw [VectorClock.from_dict] at h
  cases hI : intItems data with
  | none =>
    rw [hI] at h
    cases h
  | some c =>
    rw [hI] at h
    injection h with h
    subst h
    obtain ⟨hm, hl⟩ := intItems_spec data c hI
    refine ⟨rfl, hm, hl, ?_⟩
    intro how
    apply VC.lookup_eq_none_of_not_mem
    rw [hm]
    exact how

/-- C10 witness: importing a mapping without the owner key leaves the owner
without any counter entry. -/
theorem from_dict_exact_items_witness :
    VC.lookup [("a", (2 : Int))] "client" = none ∧
    (⟨"client", [("a", (2 : Int))]⟩ : VectorClock).node_id = "client" := by
  have h := from_dict_exact_items [("a", PyVal.pyInt 2)] "client"
    ⟨"client", [("a", 2)]⟩ (by decide)
  exact ⟨h.2.2.2 (by decide), h.1⟩

/-- C5: `compare` follows the spec algorithm over the union of label sets
with absent labels read as 0 (the code spells the spec labels after/before
as happens-after/happens-before); reflexivity and equality on identical
snapshots follow. -/
theorem compare_follows_spec_algorithm (a b : VC.Clock) :
    (VC.compare a b = "happens-after" ↔ VC.SelfAhead a b ∧ ¬ VC.OtherAhead a b) ∧
    (VC.compare a b = "happens-before" ↔ VC.OtherAhead a b ∧ ¬ VC.SelfAhead a b) ∧
    (VC.compare a b = "equal" ↔ ¬ VC.SelfAhead a b ∧ ¬ VC.OtherAhead a b) ∧
    (VC.compare a b = "concurrent" ↔ VC.SelfAhead a b ∧ VC.OtherAhead a b) ∧
    VC.compare a a = "equal" ∧
    ((∀ L, VC.getD a L = VC.getD b L) → VC.compare a b = "equal") :=
  ⟨VC.compare_after_iff a b, VC.compare_before_iff a b, VC.compare_equal_iff a b,
    VC.compare_concurrent_iff a b,
    VC.compare_equal_of_getD_eq a a (fun _ => rfl),
    VC.compare_equal_of_getD_eq a b⟩

/-- C5 witness: two clocks each ahead on its own label compare as
concurrent, via the characterization. -/
theorem compare_follows_spec_algorithm_witness :
    VC.compare [("x", (1 : Int))] [("y", (1 : Int))] = "concurrent" :=
  ((compare_follows_spec_algorithm [("x", 1)] [("y", 1)]).2.2.2.1).mpr
    ⟨⟨"x", by decide, by decide⟩, ⟨"y", by decide, by decide⟩⟩

/-- C6: `compare` is anti-symmetric — a happens-after verdict in one
direction is a happens-before verdict in the other, and conversely. -/
theorem compare_antisymmetric (a b : VC.Clock) :
    (VC.compare a b = "happens-after" → VC.compare b a = "happens-before") ∧
    (VC.compare a b = "happens-before" → VC.compare b a = "happens-after") := by
  constructor
  · intro h
    obtain ⟨hS, hO⟩ := (VC.compare_after_iff a b).mp h
    exact (VC.compare_before_iff b a).mpr
      ⟨(VC.selfAhead_swap a b).mp hS, fun hc => hO ((VC.selfAhead_swap b a).mp hc)⟩
  · intro h
    obtain ⟨hO, hS⟩ := (VC.compare_before_iff a b).mp h
    exact (VC.compare_after_iff b a).mpr
      ⟨(VC.otherAhead_swap a b).mp hO, fun hc => hS ((VC.otherAhead_swap b a).mp hc)⟩

/-- C6 witness: anti-symmetry applied at a concrete strictly-ahead pair. -/
theorem compare_antisymmetric_witness :
    VC.compare [] [("x", (1 : Int))] = "happens-before" :=
  (compare_antisymmetric [("x", (1 : Int))] []).1 (by decide)

/-- C7 counterexample: a clock with a negative counter (importable via
`from_dict`) violates merge monotonicity at a label absent from the other
clock — the merged value stays below `max(before, other)` read with absent
labels as 0. -/
theorem merge_monotonicity_cex :
    VectorClock.from_dict [("x", PyVal.pyInt (-1))] "c" = some ⟨"c", [("x", -1)]⟩ ∧
    VC.update [("x", (-1 : Int))] [("b", (0 : Int))] = [("x", -1), ("b", 0)] ∧
    VC.getD (VC.update [("x", (-1 : Int))] [("b", (0 : Int))]) "x" <
      max (VC.getD [("x", (-1 : Int))] "x") (VC.getD [("b", (0 : Int))] "x") := by
  decide

/-- C7 (amended): for clocks whose own counters are non-negative, merge is
monotone — after `update`, every label's value is at least the maximum of the
old value and the other clock's value (absent labels read as 0); in
particular no counter is ever decreased. -/
theorem update_monotone (a b : VC.Clock) (ha : ∀ kv ∈ a, 0 ≤ kv.2) (L : String) :
    max (VC.getD a L) (VC.getD b L) ≤ VC.getD (VC.update a b) L := by
  apply max_le
  · exact VC.getD_le_update b a L
  · by_cases hm : L ∈ b.map Prod.fst
    · exact VC.getD_b_le_update b a L hm
    · have hb0 : VC.getD b L = 0 := by
        simp [VC.getD, VC.lookup_eq_none_of_not_mem b L hm]
      rw [hb0]
      calc (0 : Int) ≤ VC.getD a L := VC.getD_nonneg a L ha
        _ ≤ VC.getD (VC.update a b) L := VC.getD_le_update b a L

/-- C7 witness: monotonicity at a concrete pair of non-negative clocks. -/
theorem update_monotone_witness :
    max (VC.getD [("s", (2 : Int))] "s") (VC.getD [("t", (3 : Int))] "s") ≤
      VC.getD (VC.update [("s", (2 : Int))] [("t", (3 : Int))]) "s" :=
  update_monotone [("s", 2)] [("t", 3)] (by decide) "s"

/-- C8 counterexample: with a negative counter (importable via `from_dict`)
the merge is not commutative — the two orders disagree on label x. -/
theorem merge_commutativity_cex :
    (VectorClock.from_dict [("x", PyVal.pyInt (-1))] "d").isSome = true ∧
    VC.getD (VC.update [("x", (-1 : Int))] []) "x" ≠
      VC.getD (VC.update ([] : VC.Clock) [("x", (-1 : Int))]) "x" := by
  decide

/-- C8 (amended): merging the same snapshot twice equals merging it once
(unconditionally), and for clocks with unique labels and non-negative
counters the merge is commutative pointwise over the union of label sets. -/
theorem update_idempotent_and_comm (a b : VC.Clock) :
    VC.update (VC.update a b) b = VC.update a b ∧
    ((∀ kv ∈ a, 0 ≤ kv.2) → (∀ kv ∈ b, 0 ≤ kv.2) →
      (a.map Prod.fst).Nodup → (b.map Prod.fst).Nodup →
      ∀ L, VC.getD (VC.update a b) L = VC.getD (VC.update b a) L) := by
  refine ⟨VC.update_idem a b, ?_⟩
  intro ha hb hna hnb L
  rw [VC.getD_update_eq b a hnb L, VC.getD_update_eq a b hna L]
  by_cases hma : L ∈ a.map Prod.fst <;> by_cases hmb : L ∈ b.map Prod.fst <;>
    simp only [hma, hmb, if_pos, if_neg, if_true, if_false, not_false_iff]
  · exact max_comm _ _
  · have hb0 : VC.getD b L = 0 := by
      simp [VC.getD, VC.lookup_eq_none_of_not_mem b L hmb]
    rw [hb0]
    exact (max_eq_right (VC.getD_nonneg a L ha)).symm
  · have ha0 : VC.getD a L = 0 := by
      simp [VC.getD, VC.lookup_eq_none_of_not_mem a L hma]
    rw [ha0]
    exact max_eq_right (VC.getD_nonneg b L hb)
  · have hb0 : VC.getD b L = 0 := by
      simp [VC.getD, VC.lookup_eq_none_of_not_mem b L hmb]
    have ha0 : VC.getD a L = 0 := by
      simp [VC.getD, VC.lookup_eq_none_of_not_mem a L hma]
    rw [ha0, hb0]

/-- C8 witness: idempotence and commutativity at a concrete pair. -/
theorem update_idempotent_and_comm_witness :
    VC.update (VC.update [("p", (1 : Int))] [("q", (2 : Int))]) [("q", (2 : Int))] =
      VC.update [("p", (1 : Int))] [("q", (2 : Int))] ∧
    VC.getD (VC.update [("p", (1 : Int))] [("q", (2 : Int))]) "q" =
      VC.getD (VC.update [("q", (2 : Int))] [("p", (1 : Int))]) "q" :=
  ⟨(update_idempotent_and_comm [("p", 1)] [("q", 2)]).1,
    (update_idempotent_and_comm [("p", 1)] [("q", 2)]).2
      (by decide) (by decide) (by decide) (by decide) "q"⟩

/-- C2 counterexample: a request whose attached clock contains a non-integer
value is not rejected — the handler answers 200 and processes it as a
clock-less request. -/
theorem malformed_clock_processed_cex :
    do_POST [("server", 0)] "/add"
        (some ⟨some [("a", PyVal.pyNone)], some (PyVal.pyInt 1), some (PyVal.pyInt 2)⟩) =
      ⟨[("server", 1)], 200, some "no_client_clock"⟩ ∧
    pyToInt PyVal.pyNone = none := by
  decide

/-- C2 (amended): a clock value that `int()` cannot coerce makes the import
fail; the exception is caught, the malformed clock is never merged, and the
request is processed as if it carried no clock — answered 200 with
relationship no_client_clock, the server clock only incremented. (Negative
integer values, by contrast, are accepted and merged.) -/
theorem malformed_clock_caught_and_processed (c0 : VC.Clock) (p : Payload)
    (data : List (String × PyVal)) (hvc : p.vector_clock = some data)
    (hbad : ∃ kv ∈ data, pyToInt kv.2 = none)
    (hval : validate_operands p = true) :
    do_POST c0 "/add" (some p) =
      ⟨VC.increment c0 "server", 200, some "no_client_clock"⟩ := by
  obtain ⟨kv, hm, hn⟩ := hbad
  have hII : intItems data = none := intItems_eq_none_of_bad data kv hm hn
  have hfd : VectorClock.from_dict data "client" = none := by
    simp [VectorClock.from_dict, hII]
  have hms : mergeStep c0 p = (c0, none) := by
    simp [mergeStep, hvc, hfd]
  have hfalsy : payloadFalsy p = false := by
    simp [payloadFalsy, hvc]
  simp [do_POST, hfalsy, hms, hval]

/-- C2 witness: concrete malformed-clock request handled as clock-less. -/
theorem malformed_clock_caught_and_processed_witness :
    do_POST [("s", 5)] "/add"
        (some ⟨some [("q", PyVal.pyNone)], some (PyVal.pyInt 1), some (PyVal.pyInt 1)⟩) =
      ⟨VC.increment [("s", 5)] "server", 200, some "no_client_clock"⟩ :=
  malformed_clock_caught_and_processed [("s", 5)] _ _ rfl
    ⟨("q", PyVal.pyNone), by decide, by decide⟩ (by decide)

/-- C3 counterexample: a request missing the y operand is rejected with 400,
yet the server clock has changed — the increment happened before operand
validation, so the state does not equal the state before the request. -/
theorem missing_operand_mutates_clock_cex :
    do_POST [("server", 0)] "/add" (some ⟨none, some (PyVal.pyInt 1), none⟩) =
      ⟨[("server", 1)], 400, none⟩ ∧
    [("server", (1 : Int))] ≠ [("server", (0 : Int))] := by
  decide

/-- C3 (amended): a request missing x or y on an RPC path is rejected with
400, but only after the clock merge and the server increment have run: the
server's own counter strictly increases instead of being left unchanged. -/
theorem missing_operand_rejected_after_increment (c0 : VC.Clock) (p : Payload)
    (path : String) (hfalsy : payloadFalsy p = false)
    (hxy : p.x = none ∨ p.y = none)
    (hpath : path = "/add" ∨ path = "/multiply") :
    (do_POST c0 path (some p)).status = 400 ∧
    VC.getD c0 "server" < VC.getD (do_POST c0 path (some p)).clock "server" := by
  have hval : validate_operands p = false := by
    rcases hxy with h | h
    · simp [validate_operands, h]
    · rcases hx : p.x with _ | xv <;> simp [validate_operands, h, hx]
  have hres : do_POST c0 path (some p) =
      ⟨VC.increment (mergeStep c0 p).1 "server", 400, none⟩ := by
    rcases hpath with h | h <;> simp [do_POST, hfalsy, h, hval]
  rw [hres]
  refine ⟨rfl, ?_⟩
  have h1 : VC.getD c0 "server" ≤ VC.getD (mergeStep c0 p).1 "server" := by
    unfold mergeStep
    rcases hvc : p.vector_clock with _ | data
    · simp
    · rcases hfd : VectorClock.from_dict data "client" with _ | cc
      · simp [hfd]
      · simp only [hfd]
        exact VC.getD_le_update _ _ _
  have h2 : VC.getD (VC.increment (mergeStep c0 p).1 "server") "server" =
      VC.getD (mergeStep c0 p).1 "server" + 1 := by
    simp [VC.increment, VC.getD_set]
  show VC.getD c0 "server" < VC.getD (VC.increment (mergeStep c0 p).1 "server") "server"
  omega

/-- C3 witness: applied at a concrete request missing x. -/
theorem missing_operand_rejected_after_increment_witness :
    (do_POST [("server", 0)] "/multiply"
        (some ⟨none, none, some (PyVal.pyInt 2)⟩)).status = 400 ∧
    VC.getD [("server", (0 : Int))] "server" <
      VC.getD (do_POST [("server", 0)] "/multiply"
        (some ⟨none, none, some (PyVal.pyInt 2)⟩)).clock "server" :=
  missing_operand_rejected_after_increment [("server", 0)]
    ⟨none, none, some (PyVal.pyInt 2)⟩ "/multiply" (by decide)
    (Or.inl rfl) (Or.inr rfl)

/-- C4 counterexample: the relationship value actually placed in the response
is the literal string happens-after, which is not in the claimed label set
before/after/equal/concurrent/no_client_clock. -/
theorem relationship_label_cex :
    (do_POST [("server", 0)] "/add"
        (some ⟨some [("A", PyVal.pyInt 1)], some (PyVal.pyInt 1), some (PyVal.pyInt 1)⟩)).relationship =
      some "happens-after" ∧
    "happens-after" ∉
      (["before", "after", "equal", "concurrent", "no_client_clock"] : List String) := by
  decide

/-- C4 (amended): every relationship value the handler emits lies in
the label set happens-after / happens-before / equal / concurrent /
no_client_clock. -/
theorem relationship_label_set (c0 : VC.Clock) (path : String)
    (body : Option Payload) (r : String)
    (h : (do_POST c0 path body).relationship = some r) :
    r = "happens-after" ∨ r = "happens-before" ∨ r = "equal" ∨
      r = "concurrent" ∨ r = "no_client_clock" := by
  cases body with
  | none => simp [do_POST] at h
  | some p =>
    by_cases hf : payloadFalsy p
    · simp [do_POST, hf] at h
    · by_cases hpath : path = "/add" ∨ path = "/multiply"
      · by_cases hval : validate_operands p
        · simp [do_POST, hf, hpath, hval] at h
          rcases hcc : (mergeStep c0 p).2 with _ | cc
          · rw [hcc] at h
            simp at h
            right; right; right; right
            exact h.symm
          · rw [hcc] at h
            simp at h
            rcases VC.compare_mem_labels
                (VC.increment (mergeStep c0 p).1 "server") cc.clock with
              h4 | h4 | h4 | h4 <;> rw [h] at h4
            · exact Or.inl h4
            · exact Or.inr (Or.inl h4)
            · exact Or.inr (Or.inr (Or.inl h4))
            · exact Or.inr (Or.inr (Or.inr (Or.inl h4)))
        · simp [do_POST, hf, hpath, hval] at h
      · simp [do_POST, hf, hpath] at h

/-- C4 witness: applied at a concrete clock-less request whose relationship
is no_client_clock. -/
theorem relationship_label_set_witness :
    "no_client_clock" = "happens-after" ∨ "no_client_clock" = "happens-before" ∨
      "no_client_clock" = "equal" ∨ "no_client_clock" = "concurrent" ∨
      "no_client_clock" = "no_client_clock" :=
  relationship_label_set [("server", 0)] "/add"
    (some ⟨none, some (PyVal.pyInt 1), some (PyVal.pyInt 2)⟩) "no_client_clock"
    (by decide)

/-- C9: handling a well-formed /add request carrying clock A:2, B:1 against
server state server:0 yields exactly the counters A:2, B:1, server:1 (the
merge plus a single increment of the server's own counter) and the
comparison of that post-transaction clock with the submitted clock is the
happens-after verdict (the spec's after). -/
theorem scenario_merge_then_increment :
    do_POST [("server", 0)] "/add"
        (some ⟨some [("A", PyVal.pyInt 2), ("B", PyVal.pyInt 1)],
          some (PyVal.pyInt 3), some (PyVal.pyInt 4)⟩) =
      ⟨[("server", 1), ("A", 2), ("B", 1)], 200, some "happens-after"⟩ ∧
    List.Perm [("server", (1 : Int)), ("A", 2), ("B", 1)]
      [("A", (2 : Int)), ("B", 1), ("server", 1)] ∧
    VC.compare [("server", (1 : Int)), ("A", 2), ("B", 1)]
      [("A", (2 : Int)), ("B", 1)] = "happens-after" := by
  refine ⟨by decide, ?_, by decide⟩
  decide
